import Mathlib

/-!
Verification of the Store Catalog Index of the LearnNode-TS repository.

The definitions below are a shallow embedding of `src/controllers/storeController.ts`
together with the parts of the data model it manipulates.  The persistence layer
(MongoDB via Mongoose) is modelled as explicit state passing over a `List StoreDoc`
catalog; its query operators (`$text` scoring, `$near`, `$exists`, aggregation) are
embedded with their documented semantics.  Code of the repository that is not part
of the provided sources (the `models/Store.ts` schema statics and pre-save hook) is
modelled from the specification and marked as such in the corresponding doc comments.
-/

namespace LearnNode

/-- The `location` subdocument of a store: `{ type, coordinates: [lng, lat], address }`. -/
structure Location where
  type : String
  coordinates : List Rat
  address : String
deriving DecidableEq

/-- A persisted store document (`models/Store.ts` schema fields used by the controller). -/
structure StoreDoc where
  id : String
  name : String
  slug : String
  description : String
  tags : List String
  location : Location
  photo : Option String
  author : String
deriving DecidableEq

/-- The parsed request body reaching the store handlers (`request.body`).  The `photo`
field is populated by the `resize` middleware when a file was uploaded. -/
structure StoreBody where
  name : String
  description : String
  location : Location
  tags : List String
  photo : Option String
deriving DecidableEq

/-- How a handler concludes: an HTTP redirect, a fall-through to the 404 handler
(`next()` with no route left), a thrown error caught by the error middleware,
a rejected upload from the multer file filter, or no response at all (the handler
returns without responding and without calling `next()`). -/
inductive Outcome where
  | redirect (url : String)
  | notFound
  | thrown (message : String)
  | uploadRejected
  | noResponse
deriving DecidableEq

/-- `StoreController.confirmOwner`: throws unless `store.author` equals the acting
user's id.  The thrown message is the one in the source. -/
def confirmOwner (store : StoreDoc) (userId : String) : Except String Unit :=
  if ¬ (store.author = userId) then
    Except.error "You must own a store in order to edit it!"
  else
    Except.ok ()

/-- Modelled from the spec: the pre-save hook of `models/Store.ts` is not among the
provided sources.  Per the spec, slug re-derivation "only occurs for brand-new
records, never on update", so saving an already-persisted document writes it back
unchanged: the catalog entry with the same id is replaced by the given document. -/
def saveExisting (catalog : List StoreDoc) (s : StoreDoc) : List StoreDoc :=
  catalog.map (fun t => if t.id = s.id then s else t)

/-- The field assignments `updateStore` performs on the loaded document: `body.name`
into `name`, `body.description` into `description` and — exactly as the source line
reads — `body.description` into `location.address`. -/
def applyUpdate (oldStore : StoreDoc) (body : StoreBody) : StoreDoc :=
  let oldStore := { oldStore with name := body.name }
  let oldStore := { oldStore with description := body.description }
  { oldStore with location := { oldStore.location with address := body.description } }

/-- `StoreController.updateStore` (POST `/add/:id`): forces `body.location.type` to
`"Point"`, loads the store by `request.params.id`, and if found applies the field
assignments of `applyUpdate`, saves, flashes and redirects.  The acting `user`
(`request.user`) is available to the handler but never consulted.  When no store
matches the id the handler returns without responding. -/
def updateStore (catalog : List StoreDoc) (paramsId : String) (user : String)
    (body : StoreBody) : List StoreDoc × Outcome :=
  let body := { body with location := { body.location with type := "Point" } }
  match catalog.find? (fun s => s.id = paramsId) with
  | none => (catalog, Outcome.noResponse)
  | some oldStore =>
      let newStore := applyUpdate oldStore body
      let newCatalog := saveExisting catalog newStore
      (newCatalog, Outcome.redirect ("/stores/" ++ newStore.id ++ "/edit"))

/-! ### Slug Generator (modelled from the spec)

The slug pipeline lives in the pre-save hook of `models/Store.ts`, which is not among
the provided sources; the definitions below follow the spec §4.1 word for word:
lower-case the name, replace whitespace runs with a single hyphen, strip characters
outside `[a-z0-9-]`, collapse repeated hyphens, trim leading/trailing hyphens; on a
collision with the catalog append the first unused integer suffix `-2`, `-3`, …  -/

/-- `c` is in the character class `[a-z0-9]`. -/
def isLowerAlnum (c : Char) : Bool :=
  ('a' ≤ c && c ≤ 'z') || ('0' ≤ c && c ≤ '9')

/-- Replace every maximal run of whitespace characters with a single hyphen: a
hyphen is emitted exactly at the first character of each run (`insideRun` records
whether the previous character belonged to a whitespace run). -/
def squashWhitespace (insideRun : Bool) : List Char → List Char
  | [] => []
  | c :: cs =>
      if c.isWhitespace then
        if insideRun then squashWhitespace true cs
        else '-' :: squashWhitespace true cs
      else
        c :: squashWhitespace false cs

/-- Replace every maximal run of whitespace characters with a single hyphen. -/
def replaceWhitespaceRuns (l : List Char) : List Char :=
  squashWhitespace false l

/-- Collapse every run of repeated hyphens to a single hyphen. -/
def collapseHyphens : List Char → List Char
  | [] => []
  | [c] => [c]
  | a :: b :: rest =>
      if a = '-' && b = '-' then collapseHyphens (b :: rest)
      else a :: collapseHyphens (b :: rest)

/-- Drop leading and trailing hyphens. -/
def trimHyphens (l : List Char) : List Char :=
  ((l.dropWhile (fun c => c = '-')).reverse.dropWhile (fun c => c = '-')).reverse

/-- Modelled from the spec §4.1: the base slug of a display name. -/
def slugify (name : String) : String :=
  String.mk (trimHyphens (collapseHyphens
    ((replaceWhitespaceRuns (name.toList.map Char.toLower)).filter
      (fun c => isLowerAlnum c || c = '-'))))

/-- The decimal digit characters. -/
def digitChar : Nat → Char
  | 0 => '0'
  | 1 => '1'
  | 2 => '2'
  | 3 => '3'
  | 4 => '4'
  | 5 => '5'
  | 6 => '6'
  | 7 => '7'
  | 8 => '8'
  | 9 => '9'
  | _ => '*'

/-- Decimal rendering of a natural number (fuel-driven so that it evaluates by
kernel reduction). -/
def natToCharsAux : Nat → Nat → List Char
  | 0, _ => []
  | fuel + 1, n =>
      if n < 10 then [digitChar n]
      else natToCharsAux fuel (n / 10) ++ [digitChar (n % 10)]

/-- The decimal digit string of `n`. -/
def natToChars (n : Nat) : List Char := natToCharsAux (n + 1) n

/-- The candidate slug carrying the integer suffix `k`: `candidate-k`. -/
def suffixSlug (candidate : String) (k : Nat) : String :=
  candidate ++ "-" ++ String.mk (natToChars k)

/-- Walk the suffixes `k`, `k+1`, … and return the first candidate not already in
use; `fuel` bounds the walk. -/
def resolveSuffix (existing : List String) (candidate : String) :
    Nat → Nat → String
  | 0, k => suffixSlug candidate k
  | fuel + 1, k =>
      if suffixSlug candidate k ∈ existing then
        resolveSuffix existing candidate fuel (k + 1)
      else
        suffixSlug candidate k

/-- Modelled from the spec §4.1: collision resolution.  If the candidate is free it
is used as is; otherwise the first unused integer suffix `≥ 2` is appended.  A fuel
of `existing.length + 1` suffices: among that many distinct candidates one is free. -/
def uniqueSlug (existing : List String) (candidate : String) : String :=
  if candidate ∈ existing then
    resolveSuffix existing candidate (existing.length + 1) 2
  else
    candidate

/-- Decidable form of the slug shape `^[a-z0-9]+(-[a-z0-9]+)*$`: nonempty, every
character in `[a-z0-9-]`, no hyphen at either edge, no two adjacent hyphens. -/
def noAdjacentHyphens : List Char → Bool
  | a :: b :: rest => !(a = '-' && b = '-') && noAdjacentHyphens (b :: rest)
  | _ => true

/-- The regular expression `^[a-z0-9]+(-[a-z0-9]+)*$` as a decidable predicate:
a string of that shape is exactly a nonempty string over `[a-z0-9-]` that does not
start or end with a hyphen and has no two adjacent hyphens. -/
def matchesSlugShape (s : String) : Bool :=
  let l := s.toList
  !l.isEmpty
    && l.all (fun c => isLowerAlnum c || c = '-')
    && !(l.head? = some '-')
    && !(l.getLast? = some '-')
    && noAdjacentHyphens l

/-! ### Catalog Repository: create, search, proximity, tags -/

/-- The new `Store` document built by `createStore` from `request.body` (with
`author` stamped from `request.user._id`) as the pre-save hook persists it: the
persistence layer assigns the fresh `newId`, and the hook (modelled from the spec,
§4.1) derives the slug for the brand-new record against the existing catalog. -/
def newStoreDoc (catalog : List StoreDoc) (user : String) (newId : String)
    (body : StoreBody) : StoreDoc :=
  { id := newId
    name := body.name
    slug := uniqueSlug (catalog.map StoreDoc.slug) (slugify body.name)
    description := body.description
    tags := body.tags
    location := body.location
    photo := body.photo
    author := user }

/-- `StoreController.createStore` (POST `/add`): stamps the author, saves the new
store and redirects to its slug page. -/
def createStore (catalog : List StoreDoc) (user : String) (newId : String)
    (body : StoreBody) : List StoreDoc × Outcome :=
  let doc := newStoreDoc catalog user newId body
  (catalog ++ [doc], Outcome.redirect ("/store/" ++ doc.slug))

/-- The text the weighted text index ranks against: `name` together with
`description`. -/
def indexText (s : StoreDoc) : String := s.name ++ " " ++ s.description

/-- `StoreController.searchStores` (GET `/api/search`): the Mongo `$text` find with
`textScore` projection is embedded as: keep the stores the engine scores positive
against the indexed text, `.sort` by descending `textScore`, `.limit(5)`.  `score`
abstracts the engine relevance metric for a query string. -/
def searchStores (score : String → String → Rat) (q : String)
    (catalog : List StoreDoc) : List StoreDoc :=
  ((catalog.filter (fun s => decide (0 < score q (indexText s)))).mergeSort
      (fun a b => decide (score q (indexText b) ≤ score q (indexText a)))).take 5

/-- The `.select("slug name description location photo")` projection of `mapStores`. -/
structure StoreProjection where
  slug : String
  name : String
  description : String
  location : Location
  photo : Option String
deriving DecidableEq

/-- Project a document onto the five selected fields. -/
def selectFields (s : StoreDoc) : StoreProjection :=
  { slug := s.slug
    name := s.name
    description := s.description
    location := s.location
    photo := s.photo }

/-- `StoreController.mapStores` (GET `/api/stores/near`): the `$near` query with
`$maxDistance: 10000` is embedded as: keep the stores within 10000 of the query
point (`dist` abstracts the geodesic distance of the 2dsphere index), sort by
ascending distance, `.limit(10)`, and `.select` the five projected fields. -/
def mapStores (dist : Location → Rat × Rat → Rat) (lng lat : Rat)
    (catalog : List StoreDoc) : List StoreProjection :=
  ((((catalog.filter (fun s => decide (dist s.location (lng, lat) ≤ 10000))).mergeSort
      (fun a b => decide (dist a.location (lng, lat) ≤ dist b.location (lng, lat)))).take
    10).map selectFields)

/-- Modelled from the spec: `Store.getTagsList()` is a schema static of
`models/Store.ts`, not among the provided sources.  Per §4.5 it is an
unwind-group-count aggregation over the whole catalog: each store contributes 1 to
the count of each distinct tag it holds. -/
def getTagsList (catalog : List StoreDoc) : List (String × Nat) :=
  let unwound := (catalog.map (fun s => s.tags.dedup)).flatten
  unwound.dedup.map (fun t => (t, unwound.count t))

/-- `StoreController.getStoresByTag` (GET `/tags` and `/tags/:tag`): `tagQuery` is
the route tag, or — when the parameter is absent or empty (JS falsy) — the
`{ $exists: true }` query, which matches every document carrying a `tags` field,
that is every store of the typed schema.  The tags promise is always
`Store.getTagsList()` over the whole catalog, never scoped to the filter. -/
def getStoresByTag (catalog : List StoreDoc) (tag : Option String) :
    List (String × Nat) × List StoreDoc :=
  let tagQuery : Option String :=
    match tag with
    | none => none
    | some t => if t = "" then none else some t
  let tags := getTagsList catalog
  let stores :=
    match tagQuery with
    | none => catalog
    | some t => catalog.filter (fun s => t ∈ s.tags)
  (tags, stores)

/-! ### Image Ingest Pipeline and the traced create/update routes -/

/-- An uploaded file as multer's memory storage hands it to `resize`: the declared
mimetype and the decoded pixel dimensions of the buffer. -/
structure UploadedFile where
  mimetype : String
  width : Nat
  height : Nat
deriving DecidableEq

/-- A file written to the content area (`public/uploads`): its name and the pixel
dimensions it was written with. -/
structure WrittenImage where
  filename : String
  width : Nat
  height : Nat
deriving DecidableEq

/-- The characters of `file.mimetype.split("/")[1]`: everything after the first `/`
up to the next `/` (for `image/jpeg`, the subtype `jpeg`). -/
def mimeSubtype (mime : String) : String :=
  String.mk (((mime.toList.dropWhile (fun c => c ≠ '/')).drop 1).takeWhile
    (fun c => c ≠ '/'))

/-- jimp `photo.resize(800, jimp.AUTO)`, with its documented semantics: scale to the
target width, the height computed automatically to preserve the aspect ratio. -/
def jimpResizeAuto (width height target : Nat) : Nat × Nat :=
  (target, height * target / width)

/-- `StoreController.resize` middleware: with no uploaded file it just calls
`next()`; with one it sets `request.body.photo` to `` `${uuid.v4()}.${extension}` ``
with the mimetype subtype as extension, reads the buffer, resizes to width 800 with
`jimp.AUTO` height, and writes the file to the content area before `next()` runs
the following handler.  `uuidV4` stands for the random name drawn from `uuid.v4()`. -/
def resize (uuidV4 : String) (file : Option UploadedFile) (body : StoreBody) :
    StoreBody × Option WrittenImage :=
  match file with
  | none => (body, none)
  | some f =>
      let photoName := uuidV4 ++ "." ++ mimeSubtype f.mimetype
      let dims := jimpResizeAuto f.width f.height 800
      ({ body with photo := some photoName },
       some { filename := photoName, width := dims.1, height := dims.2 })

/-- The side effects a request performs, in the order it performs them: a write of a
file into the content area, or a persist of a store document. -/
inductive Event where
  | fileWrite (filename : String)
  | persist (doc : StoreDoc)
deriving DecidableEq

/-- multer `fileFilter`: accept exactly the files whose mimetype starts with
`image/`. -/
def isPhotoUpload (f : UploadedFile) : Bool :=
  "image/".toList.isPrefixOf f.mimetype.toList

/-- POST `/add`: the middleware chain `upload` (multer), `resize`, `createStore`,
together with the ordered trace of content-area writes and document persists the
request performs.  A rejected upload stops the chain before any effect. -/
def postAddRoute (uuidV4 newId user : String) (file : Option UploadedFile)
    (body : StoreBody) (catalog : List StoreDoc) :
    List Event × List StoreDoc × Outcome :=
  match file with
  | none =>
      let res := resize uuidV4 none body
      let created := createStore catalog user newId res.1
      ([Event.persist (newStoreDoc catalog user newId res.1)], created.1, created.2)
  | some f =>
      if isPhotoUpload f then
        let res := resize uuidV4 (some f) body
        let writes :=
          match res.2 with
          | some img => [Event.fileWrite img.filename]
          | none => []
        let created := createStore catalog user newId res.1
        (writes ++ [Event.persist (newStoreDoc catalog user newId res.1)],
         created.1, created.2)
      else
        ([], catalog, Outcome.uploadRejected)

/-- POST `/add/:id`: the middleware chain `upload` (multer), `resize`,
`updateStore`, together with the ordered trace of effects.  When no store matches
the id nothing is persisted. -/
def postAddIdRoute (uuidV4 paramsId user : String) (file : Option UploadedFile)
    (body : StoreBody) (catalog : List StoreDoc) :
    List Event × List StoreDoc × Outcome :=
  match file with
  | none =>
      let res := resize uuidV4 none body
      let updated := updateStore catalog paramsId user res.1
      let persists :=
        match catalog.find? (fun s => s.id = paramsId) with
        | none => []
        | some oldStore => [Event.persist (applyUpdate oldStore res.1)]
      (persists, updated.1, updated.2)
  | some f =>
      if isPhotoUpload f then
        let res := resize uuidV4 (some f) body
        let writes :=
          match res.2 with
          | some img => [Event.fileWrite img.filename]
          | none => []
        let updated := updateStore catalog paramsId user res.1
        let persists :=
          match catalog.find? (fun s => s.id = paramsId) with
          | none => []
          | some oldStore => [Event.persist (applyUpdate oldStore res.1)]
        (writes ++ persists, updated.1, updated.2)
      else
        ([], catalog, Outcome.uploadRejected)

/-- The filenames a trace writes to the content area. -/
def traceWrites (events : List Event) : List String :=
  events.filterMap (fun e =>
    match e with
    | Event.fileWrite fn => some fn
    | Event.persist _ => none)

/-- Every photo reference of the catalog points at a file of the content area. -/
def refsWritten (catalog : List StoreDoc) (written : List String) : Prop :=
  ∀ s ∈ catalog, ∀ fn, s.photo = some fn → fn ∈ written

/-- Every document a trace persists references, as its photo, either a file already
in the content area before the request or a file some strictly earlier event of the
same trace wrote. -/
def persistedAfterWrite (events : List Event) (written : List String) : Prop :=
  ∀ j d, events.get? j = some (Event.persist d) → ∀ fn, d.photo = some fn →
    fn ∈ written ∨ ∃ i, i < j ∧ events.get? i = some (Event.fileWrite fn)

/-! ### Concrete fixtures used by counterexamples and witnesses -/

/-- A concrete location. -/
def demoLocation : Location :=
  { type := "Point", coordinates := [0, 0], address := "12 High Street" }

/-- A concrete persisted store, authored by `"alice"`. -/
def demoStore : StoreDoc :=
  { id := "s1"
    name := "Blue Moon Cafe"
    slug := "blue-moon-cafe"
    description := "coffee"
    tags := ["cafe"]
    location := demoLocation
    photo := some "old.png"
    author := "alice" }

/-- A concrete update patch that changes every mutable field. -/
def demoPatch : StoreBody :=
  { name := "New Name"
    description := "New Description"
    location := { type := "", coordinates := [1, 2], address := "99 New Road" }
    tags := ["bakery"]
    photo := some "fresh.png" }

/-- A concrete creation body with no photo string (the photo arrives as a file). -/
def demoBody : StoreBody :=
  { name := "Blue Moon Cafe"
    description := "coffee"
    location := demoLocation
    tags := ["cafe"]
    photo := none }

/-! ### Small field lemmas -/

theorem applyUpdate_id (s : StoreDoc) (b : StoreBody) : (applyUpdate s b).id = s.id := rfl

theorem applyUpdate_slug (s : StoreDoc) (b : StoreBody) : (applyUpdate s b).slug = s.slug := rfl

theorem applyUpdate_author (s : StoreDoc) (b : StoreBody) :
    (applyUpdate s b).author = s.author := rfl

theorem applyUpdate_photo (s : StoreDoc) (b : StoreBody) :
    (applyUpdate s b).photo = s.photo := rfl

theorem applyUpdate_tags (s : StoreDoc) (b : StoreBody) :
    (applyUpdate s b).tags = s.tags := rfl

/-- Replacing the record with a given id by a record that projects identically (under
a catalog whose ids are distinct) leaves the projection of the catalog unchanged. -/
theorem saveExisting_map_proj {β : Type} (proj : StoreDoc → β)
    (catalog : List StoreDoc) (s t₀ : StoreDoc)
    (hmem : t₀ ∈ catalog) (hid : (catalog.map StoreDoc.id).Nodup)
    (hids : s.id = t₀.id) (hproj : proj s = proj t₀) :
    (saveExisting catalog s).map proj = catalog.map proj := by
  unfold saveExisting
  rw [List.map_map]
  apply List.map_congr_left
  intro t ht
  simp only [Function.comp_apply]
  by_cases h : t.id = s.id
  · have ht₀ : t = t₀ := List.inj_on_of_nodup_map hid ht hmem (by rw [h, hids])
    simp [h, ht₀, hids.symm, hproj]
  · simp [h]

/-! ### Claim theorems -/

/-- C1: the claim says every `update` by a user other than the store's author fails
with `Forbidden`, the Authorization Guard being invoked on the loaded record before
any mutation.  The code does not invoke `confirmOwner` on the update path: with the
store authored by `"alice"`, an update by `"bob"` — whom the guard would reject —
succeeds with a redirect and mutates the persisted record. -/
theorem updateStore_bypasses_owner_guard :
    confirmOwner demoStore "bob" =
        Except.error "You must own a store in order to edit it!" ∧
    (updateStore [demoStore] "s1" "bob" demoPatch).2 = Outcome.redirect "/stores/s1/edit" ∧
    ((updateStore [demoStore] "s1" "bob" demoPatch).1).map StoreDoc.name = ["New Name"] ∧
    (updateStore [demoStore] "s1" "bob" demoPatch).1 ≠ [demoStore] := by
  refine ⟨rfl, by decide, by decide, by decide⟩

/-- C2: for every catalog with distinct ids, every id, acting user and patch body,
`updateStore` leaves the `id`, `slug` and `author` of every record unchanged — in
particular the slug is never re-derived, whatever the patch contains. -/
theorem updateStore_preserves_slug_and_author
    (catalog : List StoreDoc) (paramsId user : String) (body : StoreBody)
    (hid : (catalog.map StoreDoc.id).Nodup) :
    ((updateStore catalog paramsId user body).1).map (fun s => (s.id, s.slug, s.author)) =
      catalog.map (fun s => (s.id, s.slug, s.author)) := by
  unfold updateStore
  cases hfind : catalog.find? (fun s => s.id = paramsId) with
  | none => rfl
  | some oldStore =>
      exact saveExisting_map_proj _ catalog _ oldStore
        (List.mem_of_find?_eq_some hfind) hid (applyUpdate_id _ _) rfl

/-- Witness for C2 at a concrete catalog, id, user and patch. -/
theorem updateStore_preserves_slug_and_author_witness :
    ((updateStore [demoStore] "s1" "bob" demoPatch).1).map
        (fun s => (s.id, s.slug, s.author)) =
      [("s1", "blue-moon-cafe", "alice")] :=
  updateStore_preserves_slug_and_author [demoStore] "s1" "bob" demoPatch (by decide)

/-- C3: the claim says `update` applies the patch's address-equivalent value to the
location address and, when present, `photo` and `tags`.  The code instead copies the
patch's `description` into `location.address` and never applies `photo` or `tags`:
with a patch carrying address `"99 New Road"`, photo `"fresh.png"` and tags
`["bakery"]`, the persisted record ends with address `"New Description"` (the
patch's description), the old photo and the old tags. -/
theorem updateStore_misapplies_patch_fields :
    ((updateStore [demoStore] "s1" "alice" demoPatch).1).map
        (fun s => s.location.address) = ["New Description"] ∧
    demoPatch.location.address = "99 New Road" ∧
    ((updateStore [demoStore] "s1" "alice" demoPatch).1).map StoreDoc.photo =
        [some "old.png"] ∧
    demoPatch.photo = some "fresh.png" ∧
    ((updateStore [demoStore] "s1" "alice" demoPatch).1).map StoreDoc.tags = [["cafe"]] ∧
    demoPatch.tags = ["bakery"] := by
  refine ⟨by decide, rfl, by decide, rfl, by decide, rfl⟩

/-- C8 counterexample: the claim says `update` on an id with no existing store fails
with `NotFound` rather than completing without effect.  On an unknown id the handler
leaves the catalog untouched and produces no response at all — it neither surfaces a
404-equivalent nor throws. -/
theorem updateStore_unknown_id_counterexample :
    updateStore [demoStore] "does-not-exist" "alice" demoPatch =
        ([demoStore], Outcome.noResponse) ∧
    Outcome.noResponse ≠ Outcome.notFound := by
  refine ⟨by decide, by decide⟩

/-- C8 (amended): for every id that does not identify an existing store, `update`
completes without effect — the catalog is unchanged and no response of any kind is
produced (no `NotFound` is surfaced). -/
theorem updateStore_unknown_id_no_effect
    (catalog : List StoreDoc) (paramsId user : String) (body : StoreBody)
    (habsent : ∀ s ∈ catalog, s.id ≠ paramsId) :
    updateStore catalog paramsId user body = (catalog, Outcome.noResponse) := by
  unfold updateStore
  have hfind : catalog.find? (fun s => s.id = paramsId) = none :=
    List.find?_eq_none.mpr (fun s hs => by simpa using habsent s hs)
  rw [hfind]

/-- Witness for C8 (amended) at a concrete catalog and unknown id. -/
theorem updateStore_unknown_id_no_effect_witness :
    updateStore [demoStore] "missing" "alice" demoPatch =
      ([demoStore], Outcome.noResponse) :=
  updateStore_unknown_id_no_effect [demoStore] "missing" "alice" demoPatch (by decide)

/-- C7: for every catalog and every route tag, the tag-count list `getStoresByTag`
returns is always the catalog-wide `getTagsList` — never scoped to the filtered
stores — and a missing or empty tag matches all stores regardless of their tags. -/
theorem getStoresByTag_global_counts (catalog : List StoreDoc) (tag : Option String) :
    (getStoresByTag catalog tag).1 = getTagsList catalog ∧
    ((tag = none ∨ tag = some "") → (getStoresByTag catalog tag).2 = catalog) := by
  constructor
  · rfl
  · rintro (h | h) <;> subst h <;> simp [getStoresByTag]

/-- Witness for C7 at a concrete catalog and a missing tag. -/
theorem getStoresByTag_global_counts_witness :
    (getStoresByTag [demoStore] none).2 = [demoStore] :=
  (getStoresByTag_global_counts [demoStore] none).2 (Or.inl rfl)

/-- C9: for every uploaded photo that decodes to positive width, `resize` produces a
file of width 800 whose height is the automatically computed `height * 800 / width`
(exactly aspect-preserving whenever the scale divides), under a fresh name made of
the drawn uuid and the mimetype subtype as extension, and embeds that name in the
request body for the store payload. -/
theorem resize_width_height_filename (uuidV4 : String) (f : UploadedFile)
    (body : StoreBody) (_hw : 0 < f.width) :
    ∃ img, (resize uuidV4 (some f) body).2 = some img ∧
      img.width = 800 ∧
      img.height = f.height * 800 / f.width ∧
      (f.width ∣ f.height * 800 → img.height * f.width = f.height * 800) ∧
      img.filename = uuidV4 ++ "." ++ mimeSubtype f.mimetype ∧
      (resize uuidV4 (some f) body).1.photo = some img.filename := by
  refine ⟨_, rfl, rfl, rfl, ?_, rfl, rfl⟩
  intro hdvd
  exact Nat.div_mul_cancel hdvd

/-- Witness for C9: a 2000×1000 upload is stored as 800×400 under
`<uuid>.<subtype>`. -/
theorem resize_width_height_filename_witness :
    ∃ img,
      (resize "11d0" (some { mimetype := "image/jpeg", width := 2000, height := 1000 })
          demoBody).2 = some img ∧
      img.width = 800 ∧ img.height = 400 ∧ img.filename = "11d0.jpeg" := by
  obtain ⟨img, h1, h2, h3, -, h5, -⟩ :=
    resize_width_height_filename "11d0"
      { mimetype := "image/jpeg", width := 2000, height := 1000 } demoBody (by decide)
  refine ⟨img, h1, h2, by rw [h3]; decide, by rw [h5]; decide⟩

/-- C4: for every relevance scorer, query string and catalog, `searchStores` returns
at most 5 stores (the hard-coded limit of the route), ordered by non-increasing
relevance score against the indexed `name` plus `description` text. -/
theorem searchStores_limit_and_ranking (score : String → String → Rat) (q : String)
    (catalog : List StoreDoc) :
    (searchStores score q catalog).length ≤ 5 ∧
    (searchStores score q catalog).Pairwise
      (fun a b => score q (indexText b) ≤ score q (indexText a)) := by
  constructor
  · unfold searchStores
    rw [List.length_take]
    exact inf_le_left
  · have hs := @List.sorted_mergeSort StoreDoc
      (fun a b : StoreDoc => decide (score q (indexText b) ≤ score q (indexText a)))
      (fun a b c hab hbc => by
        simp only [decide_eq_true_eq] at *
        exact le_trans hbc hab)
      (fun a b => by
        simpa using le_total (score q (indexText b)) (score q (indexText a)))
      (catalog.filter (fun s => decide (0 < score q (indexText s))))
    have ht := List.Pairwise.sublist (List.take_sublist 5 _) hs
    exact ht.imp (fun h => of_decide_eq_true h)

/-- C5: for every distance metric, query point and catalog, `mapStores` returns at
most 10 results (the hard-coded limit), every result is the projection onto `slug`,
`name`, `description`, `location`, `photo` of a catalog store within 10000 of the
point (the hard-coded `$maxDistance`), and results come in non-decreasing distance
order. -/
theorem mapStores_radius_order_projection (dist : Location → Rat × Rat → Rat)
    (lng lat : Rat) (catalog : List StoreDoc) :
    (mapStores dist lng lat catalog).length ≤ 10 ∧
    (∀ p ∈ mapStores dist lng lat catalog,
      ∃ s ∈ catalog, p = selectFields s ∧ dist s.location (lng, lat) ≤ 10000) ∧
    (mapStores dist lng lat catalog).Pairwise
      (fun a b => dist a.location (lng, lat) ≤ dist b.location (lng, lat)) := by
  refine ⟨?_, ?_, ?_⟩
  · unfold mapStores
    rw [List.length_map, List.length_take]
    exact inf_le_left
  · intro p hp
    unfold mapStores at hp
    obtain ⟨s, hs, hps⟩ := List.mem_map.mp hp
    have hs' : s ∈ (catalog.filter
        (fun s => decide (dist s.location (lng, lat) ≤ 10000))).mergeSort
        (fun a b => decide (dist a.location (lng, lat) ≤ dist b.location (lng, lat))) :=
      List.mem_of_mem_take hs
    have hs'' := List.mem_mergeSort.mp hs'
    obtain ⟨hmem, hd⟩ := List.mem_filter.mp hs''
    exact ⟨s, hmem, hps.symm, of_decide_eq_true hd⟩
  · have hs := @List.sorted_mergeSort StoreDoc
      (fun a b : StoreDoc =>
        decide (dist a.location (lng, lat) ≤ dist b.location (lng, lat)))
      (fun a b c hab hbc => by
        simp only [decide_eq_true_eq] at *
        exact le_trans hab hbc)
      (fun a b => by
        simpa using le_total (dist a.location (lng, lat)) (dist b.location (lng, lat)))
      (catalog.filter (fun s => decide (dist s.location (lng, lat) ≤ 10000)))
    have ht := List.Pairwise.sublist (List.take_sublist 10 _) hs
    exact List.Pairwise.map selectFields (fun a b h => of_decide_eq_true h) ht

/-! ### Lemmas for the effect traces -/

theorem newStoreDoc_photo (catalog : List StoreDoc) (user newId : String)
    (body : StoreBody) : (newStoreDoc catalog user newId body).photo = body.photo := rfl

theorem persistedAfterWrite_nil (written : List String) :
    persistedAfterWrite [] written := by
  intro j d hj
  simp at hj

theorem persistedAfterWrite_single_write (fn₀ : String) (written : List String) :
    persistedAfterWrite [Event.fileWrite fn₀] written := by
  intro j d hj
  cases j with
  | zero => simp at hj
  | succ j => simp at hj

theorem persistedAfterWrite_single (d : StoreDoc) (written : List String)
    (h : ∀ fn, d.photo = some fn → fn ∈ written) :
    persistedAfterWrite [Event.persist d] written := by
  intro j d' hj fn hfn
  cases j with
  | zero =>
      simp only [List.get?_eq_getElem?, List.getElem?_cons_zero, Option.some.injEq] at hj
      cases hj
      exact Or.inl (h fn hfn)
  | succ j => simp at hj

theorem persistedAfterWrite_write_then_persist (fn₀ : String) (d : StoreDoc)
    (written : List String)
    (h : ∀ fn, d.photo = some fn → fn = fn₀ ∨ fn ∈ written) :
    persistedAfterWrite [Event.fileWrite fn₀, Event.persist d] written := by
  intro j d' hj fn hfn
  cases j with
  | zero => simp at hj
  | succ j =>
      cases j with
      | zero =>
          simp only [List.get?_eq_getElem?, List.getElem?_cons_succ,
            List.getElem?_cons_zero, Option.some.injEq] at hj
          cases hj
          rcases h fn hfn with heq | hmem
          · exact Or.inr ⟨0, Nat.zero_lt_one, by simp [heq]⟩
          · exact Or.inl hmem
      | succ j => simp at hj

theorem refsWritten_mono (catalog : List StoreDoc) (written extra : List String)
    (h : refsWritten catalog written) : refsWritten catalog (written ++ extra) :=
  fun s hs fn hfn => List.mem_append_left extra (h s hs fn hfn)

theorem refsWritten_append_doc (catalog : List StoreDoc) (written : List String)
    (d : StoreDoc) (h : refsWritten catalog written)
    (hd : ∀ fn, d.photo = some fn → fn ∈ written) :
    refsWritten (catalog ++ [d]) written := by
  intro s hs fn hfn
  rcases List.mem_append.mp hs with hs | hs
  · exact h s hs fn hfn
  · rcases List.mem_singleton.mp hs with rfl
    exact hd fn hfn

theorem refsWritten_saveExisting (catalog : List StoreDoc) (written : List String)
    (d : StoreDoc) (h : refsWritten catalog written)
    (hd : ∀ fn, d.photo = some fn → fn ∈ written) :
    refsWritten (saveExisting catalog d) written := by
  intro s hs fn hfn
  obtain ⟨t, ht, hts⟩ := List.mem_map.mp hs
  by_cases hid : t.id = d.id
  · rw [if_pos hid] at hts
    subst hts
    exact hd fn hfn
  · rw [if_neg hid] at hts
    subst hts
    exact h t ht fn hfn

/-- C10: for every create or update request — with or without an uploaded photo —
against a catalog whose photo references were all previously written, and a form
body carrying no photo string (the photo arrives only as the uploaded file), the
resized file is written to the content area strictly before the store document
referencing its filename is persisted, and after the request every persisted photo
reference still points at a written file. -/
theorem photo_written_before_persist
    (uuidV4 newId paramsId user : String) (file : Option UploadedFile)
    (body : StoreBody) (catalog : List StoreDoc) (written : List String)
    (hub : refsWritten catalog written) (hb : body.photo = none) :
    (persistedAfterWrite (postAddRoute uuidV4 newId user file body catalog).1 written ∧
      refsWritten (postAddRoute uuidV4 newId user file body catalog).2.1
        (written ++ traceWrites (postAddRoute uuidV4 newId user file body catalog).1)) ∧
    (persistedAfterWrite (postAddIdRoute uuidV4 paramsId user file body catalog).1 written ∧
      refsWritten (postAddIdRoute uuidV4 paramsId user file body catalog).2.1
        (written ++ traceWrites (postAddIdRoute uuidV4 paramsId user file body catalog).1)) := by
  constructor
  · -- POST /add
    cases file with
    | none =>
        simp only [postAddRoute, resize, createStore, traceWrites, List.filterMap]
        constructor
        · exact persistedAfterWrite_single _ _ (fun fn hfn => by
            rw [newStoreDoc_photo, hb] at hfn
            cases hfn)
        · exact refsWritten_append_doc _ _ _
            (refsWritten_mono _ _ _ hub)
            (fun fn hfn => by
              rw [newStoreDoc_photo, hb] at hfn
              cases hfn)
    | some f =>
        by_cases hp : isPhotoUpload f
        · simp only [postAddRoute, resize, createStore, hp, if_true, traceWrites,
            List.filterMap]
          constructor
          · exact persistedAfterWrite_write_then_persist _ _ _ (fun fn hfn => by
              rw [newStoreDoc_photo] at hfn
              exact Or.inl (Option.some.inj hfn).symm)
          · exact refsWritten_append_doc _ _ _
              (refsWritten_mono _ _ _ hub)
              (fun fn hfn => by
                rw [newStoreDoc_photo] at hfn
                rcases Option.some.inj hfn with rfl
                simp)
        · simp only [postAddRoute, hp, if_false, traceWrites, List.filterMap]
          exact ⟨persistedAfterWrite_nil _, by simpa using hub⟩
  · -- POST /add/:id
    cases file with
    | none =>
        cases hfind : catalog.find? (fun s => s.id = paramsId) with
        | none =>
            simp only [postAddIdRoute, resize, updateStore, hfind, traceWrites,
              List.filterMap]
            exact ⟨persistedAfterWrite_nil _, by simpa using hub⟩
        | some oldStore =>
            have hmem : oldStore ∈ catalog := List.mem_of_find?_eq_some hfind
            simp only [postAddIdRoute, resize, updateStore, hfind, traceWrites,
              List.filterMap]
            constructor
            · exact persistedAfterWrite_single _ _ (fun fn hfn => by
                rw [applyUpdate_photo] at hfn
                exact hub oldStore hmem fn hfn)
            · exact refsWritten_saveExisting _ _ _
                (refsWritten_mono _ _ _ hub)
                (fun fn hfn => by
                  rw [applyUpdate_photo] at hfn
                  exact List.mem_append_left _ (hub oldStore hmem fn hfn))
    | some f =>
        by_cases hp : isPhotoUpload f
        · cases hfind : catalog.find? (fun s => s.id = paramsId) with
          | none =>
              simp only [postAddIdRoute, resize, updateStore, hfind, hp, if_true,
                traceWrites, List.filterMap]
              exact ⟨persistedAfterWrite_single_write _ _, refsWritten_mono _ _ _ hub⟩
          | some oldStore =>
              have hmem : oldStore ∈ catalog := List.mem_of_find?_eq_some hfind
              simp only [postAddIdRoute, resize, updateStore, hfind, hp, if_true,
                traceWrites, List.filterMap]
              constructor
              · exact persistedAfterWrite_write_then_persist _ _ _ (fun fn hfn => by
                  rw [applyUpdate_photo] at hfn
                  exact Or.inr (hub oldStore hmem fn hfn))
              · exact refsWritten_saveExisting _ _ _
                  (refsWritten_mono _ _ _ hub)
                  (fun fn hfn => by
                    rw [applyUpdate_photo] at hfn
                    exact List.mem_append_left _ (hub oldStore hmem fn hfn))
        · simp only [postAddIdRoute, hp, if_false, traceWrites, List.filterMap]
          exact ⟨persistedAfterWrite_nil _, by simpa using hub⟩

/-- Witness for C10: a create with a 2000×1000 JPEG against the empty catalog writes
the file strictly before persisting the document referencing it. -/
theorem photo_written_before_persist_witness :
    persistedAfterWrite
      (postAddRoute "11d0" "s9" "alice"
        (some { mimetype := "image/jpeg", width := 2000, height := 1000 })
        demoBody []).1 [] :=
  ((photo_written_before_persist "11d0" "s9" "s1" "alice"
      (some { mimetype := "image/jpeg", width := 2000, height := 1000 })
      demoBody [] [] (fun s hs => absurd hs (List.not_mem_nil s)) rfl).1).1

/-! ### Decimal rendering: roundtrip and injectivity -/

/-- Parse back a decimal digit string (left inverse of `natToChars`). -/
def charsToNat (l : List Char) : Nat :=
  l.foldl (fun acc c => acc * 10 + (c.toNat - 48)) 0

theorem charsToNat_append_digit (l : List Char) (c : Char) :
    charsToNat (l ++ [c]) = charsToNat l * 10 + (c.toNat - 48) := by
  unfold charsToNat
  rw [List.foldl_append]
  rfl

theorem digitChar_toNat : ∀ n < 10, (digitChar n).toNat - 48 = n := by decide

theorem charsToNat_natToCharsAux :
    ∀ fuel n, n < fuel → charsToNat (natToCharsAux fuel n) = n := by
  intro fuel
  induction fuel with
  | zero => intro n hn; omega
  | succ fuel ih =>
      intro n hn
      by_cases h10 : n < 10
      · simp only [natToCharsAux, h10, if_true]
        show 0 * 10 + ((digitChar n).toNat - 48) = n
        rw [digitChar_toNat n h10]
        omega
      · simp only [natToCharsAux, h10, if_false]
        rw [charsToNat_append_digit]
        have hdiv : n / 10 < fuel := by
          have h1 : n / 10 < n := Nat.div_lt_self (by omega) (by omega)
          omega
        rw [ih (n / 10) hdiv, digitChar_toNat (n % 10) (Nat.mod_lt n (by omega))]
        have := Nat.div_add_mod n 10
        omega

theorem charsToNat_natToChars (n : Nat) : charsToNat (natToChars n) = n :=
  charsToNat_natToCharsAux (n + 1) n (Nat.lt_succ_self n)

theorem natToChars_injective : Function.Injective natToChars :=
  Function.LeftInverse.injective charsToNat_natToChars

theorem suffixSlug_injective (candidate : String) :
    Function.Injective (suffixSlug candidate) := by
  intro k j h
  unfold suffixSlug at h
  rw [String.ext_iff] at h
  rw [String.data_append, String.data_append] at h
  have h' := List.append_cancel_left h
  exact natToChars_injective h'

/-! ### Collision resolution returns a slug not already in use -/

theorem resolveSuffix_not_mem (existing : List String) (candidate : String) :
    ∀ fuel k,
      ((List.range' k fuel).filter
          (fun j => decide (suffixSlug candidate j ∈ existing))).length < fuel →
      resolveSuffix existing candidate fuel k ∉ existing := by
  intro fuel
  induction fuel with
  | zero => intro k h; omega
  | succ fuel ih =>
      intro k h
      by_cases hm : suffixSlug candidate k ∈ existing
      · simp only [resolveSuffix, hm, if_true]
        apply ih (k + 1)
        rw [List.range'_succ, List.filter_cons, if_pos (decide_eq_true hm),
          List.length_cons] at h
        omega
      · simp only [resolveSuffix, hm, if_false]
        exact not_false

theorem uniqueSlug_not_mem (existing : List String) (candidate : String) :
    uniqueSlug existing candidate ∉ existing := by
  by_cases hc : candidate ∈ existing
  · unfold uniqueSlug
    rw [if_pos hc]
    apply resolveSuffix_not_mem
    have hnodup : ((List.range' 2 (existing.length + 1)).filter
        (fun j => decide (suffixSlug candidate j ∈ existing))).Nodup :=
      List.Nodup.sublist (List.filter_sublist _) (List.nodup_range' _ _)
    set F := (List.range' 2 (existing.length + 1)).filter
      (fun j => decide (suffixSlug candidate j ∈ existing)) with hF
    have hmapnodup : (F.map (suffixSlug candidate)).Nodup :=
      List.Nodup.map_on (fun x _ y _ hxy => suffixSlug_injective candidate hxy) hnodup
    have hsubset : ∀ x ∈ F.map (suffixSlug candidate), x ∈ existing := by
      intro x hx
      obtain ⟨j, hj, hjx⟩ := List.mem_map.mp hx
      have := (List.mem_filter.mp hj).2
      rw [← hjx]
      exact of_decide_eq_true this
    have hcard : (F.map (suffixSlug candidate)).length ≤ existing.length := by
      calc (F.map (suffixSlug candidate)).length
          = (F.map (suffixSlug candidate)).toFinset.card :=
            (List.toFinset_card_of_nodup hmapnodup).symm
        _ ≤ existing.toFinset.card := Finset.card_le_card (by
            intro x hx
            exact List.mem_toFinset.mpr (hsubset x (List.mem_toFinset.mp hx)))
        _ ≤ existing.length := List.toFinset_card_le existing
    rw [List.length_map] at hcard
    omega
  · unfold uniqueSlug
    rw [if_neg hc]
    exact hc

/-! ### The base slug has the shape `^[a-z0-9]+(-[a-z0-9]+)*$` -/

theorem isLowerAlnum_ne_hyphen (c : Char) (h : isLowerAlnum c = true) : c ≠ '-' := by
  intro hc
  subst hc
  exact absurd h (by decide)

theorem isLowerAlnum_not_ws (c : Char) (h : isLowerAlnum c = true) :
    c.isWhitespace = false := by
  by_contra hws
  have hws' : c.isWhitespace = true := by simpa using hws
  simp only [Char.isWhitespace, Bool.or_eq_true, decide_eq_true_eq] at hws'
  rcases hws' with ((h1 | h1) | h1) | h1 <;> subst h1 <;> exact absurd h (by decide)

theorem mem_squashWhitespace (c : Char) (hcw : c.isWhitespace = false) :
    ∀ (insideRun : Bool) (l : List Char), c ∈ l → c ∈ squashWhitespace insideRun l := by
  intro insideRun l
  induction l generalizing insideRun with
  | nil => intro h; cases h
  | cons a as ih =>
      intro hmem
      by_cases ha : a.isWhitespace
      · have hca : c ≠ a := by
          intro h
          rw [h, ha] at hcw
          cases hcw
        have htail : c ∈ as := by
          rcases List.mem_cons.mp hmem with h | h
          · exact absurd h hca
          · exact h
        simp only [squashWhitespace, ha, if_true]
        cases insideRun with
        | true => exact ih true htail
        | false => exact List.mem_cons_of_mem _ (ih true htail)
      · have ha' : a.isWhitespace = false := by simpa using ha
        simp only [squashWhitespace, ha', if_false, Bool.false_eq_true]
        rcases List.mem_cons.mp hmem with h | h
        · exact h ▸ List.mem_cons_self _ _
        · exact List.mem_cons_of_mem _ (ih false h)

theorem mem_collapseHyphens (l : List Char) (c : Char) (hmem : c ∈ l)
    (hc : c ≠ '-') : c ∈ collapseHyphens l := by
  induction l using collapseHyphens.induct with
  | case1 => cases hmem
  | case2 x =>
      simpa [collapseHyphens] using hmem
  | case3 a b rest hab ih =>
      have hab' : a = '-' ∧ b = '-' := by simpa using hab
      have hca : c ≠ a := fun h => hc (h.trans hab'.1)
      have htail : c ∈ b :: rest := by
        rcases List.mem_cons.mp hmem with h | h
        · exact absurd h hca
        · exact h
      simp only [collapseHyphens]
      rw [if_pos hab]
      exact ih htail
  | case4 a b rest hab ih =>
      simp only [collapseHyphens]
      rw [if_neg hab]
      rcases List.mem_cons.mp hmem with h | h
      · exact h ▸ List.mem_cons_self _ _
      · exact List.mem_cons_of_mem _ (ih h)

theorem collapseHyphens_subset (l : List Char) :
    ∀ x ∈ collapseHyphens l, x ∈ l := by
  induction l using collapseHyphens.induct with
  | case1 => intro x hx; cases hx
  | case2 c => intro x hx; simpa [collapseHyphens] using hx
  | case3 a b rest hab ih =>
      intro x hx
      simp only [collapseHyphens] at hx
      rw [if_pos hab] at hx
      exact List.mem_cons_of_mem _ (ih x hx)
  | case4 a b rest hab ih =>
      intro x hx
      simp only [collapseHyphens] at hx
      rw [if_neg hab] at hx
      rcases List.mem_cons.mp hx with h | h
      · exact h ▸ List.mem_cons_self _ _
      · exact List.mem_cons_of_mem _ (ih x h)

theorem head_collapseHyphens (l : List Char)
    (h : (collapseHyphens l).head? = some '-') : l.head? = some '-' := by
  induction l using collapseHyphens.induct with
  | case1 => simpa [collapseHyphens] using h
  | case2 c => simpa [collapseHyphens] using h
  | case3 a b rest hab ih =>
      have hab' : a = '-' ∧ b = '-' := by simpa using hab
      simp [hab'.1]
  | case4 a b rest hab ih =>
      simp only [collapseHyphens] at h
      rw [if_neg hab] at h
      simp only [List.head?_cons, Option.some.injEq] at h
      simp [h]

theorem noAdjacentHyphens_collapseHyphens (l : List Char) :
    noAdjacentHyphens (collapseHyphens l) = true := by
  induction l using collapseHyphens.induct with
  | case1 => rfl
  | case2 c => rfl
  | case3 a b rest hab ih =>
      simp only [collapseHyphens]
      rw [if_pos hab]
      exact ih
  | case4 a b rest hab ih =>
      simp only [collapseHyphens]
      rw [if_neg hab]
      cases hX : collapseHyphens (b :: rest) with
      | nil => rfl
      | cons x xs =>
          rw [hX] at ih
          have hx : ¬(a = '-' ∧ x = '-') := by
            rintro ⟨ha, hx⟩
            have hb : (b :: rest).head? = some '-' :=
              head_collapseHyphens (b :: rest) (by rw [hX, hx]; rfl)
            simp only [List.head?_cons, Option.some.injEq] at hb
            simp [ha, hb] at hab
          show (!(decide (a = '-') && decide (x = '-')) && noAdjacentHyphens (x :: xs)) = true
          rw [Bool.and_eq_true, ih]
          refine ⟨?_, rfl⟩
          rw [Bool.not_eq_true', Bool.and_eq_false_iff]
          by_cases ha : a = '-'
          · right
            rw [decide_eq_false_iff_not]
            intro hx'
            exact hx ⟨ha, hx'⟩
          · left
            rw [decide_eq_false_iff_not]
            exact ha

theorem noAdjacentHyphens_iff :
    ∀ l : List Char,
      noAdjacentHyphens l = true ↔
        List.Chain' (fun a b : Char => ¬(a = '-' ∧ b = '-')) l
  | [] => by simp [noAdjacentHyphens]
  | [c] => by simp [noAdjacentHyphens]
  | a :: b :: rest => by
      have ih := noAdjacentHyphens_iff (b :: rest)
      rw [List.chain'_cons, ← ih]
      show (!(decide (a = '-') && decide (b = '-')) && noAdjacentHyphens (b :: rest)) =
          true ↔ _
      rw [Bool.and_eq_true, Bool.not_eq_true', Bool.and_eq_false_iff]
      constructor
      · rintro ⟨h1, h2⟩
        refine ⟨?_, h2⟩
        rintro ⟨ha, hb⟩
        rcases h1 with h1 | h1
        · exact of_decide_eq_false h1 ha
        · exact of_decide_eq_false h1 hb
      · rintro ⟨h1, h2⟩
        refine ⟨?_, h2⟩
        by_cases ha : a = '-'
        · right
          rw [decide_eq_false_iff_not]
          intro hb
          exact h1 ⟨ha, hb⟩
        · left
          rw [decide_eq_false_iff_not]
          exact ha

theorem head_dropWhile_ne (p : Char → Bool) :
    ∀ (l : List Char) (c : Char), (l.dropWhile p).head? = some c → p c = false := by
  intro l
  induction l with
  | nil => intro c h; cases h
  | cons a as ih =>
      intro c h
      by_cases ha : p a
      · rw [List.dropWhile_cons, if_pos ha] at h
        exact ih c h
      · rw [List.dropWhile_cons, if_neg ha] at h
        simp only [List.head?_cons, Option.some.injEq] at h
        subst h
        simpa using ha

theorem mem_dropWhile_of_not (p : Char → Bool) :
    ∀ (l : List Char) (c : Char), c ∈ l → p c = false → c ∈ l.dropWhile p := by
  intro l
  induction l with
  | nil => intro c h; cases h
  | cons a as ih =>
      intro c hmem hc
      by_cases ha : p a
      · rw [List.dropWhile_cons, if_pos ha]
        rcases List.mem_cons.mp hmem with h | h
        · subst h
          rw [hc] at ha
          cases ha
        · exact ih c h hc
      · rw [List.dropWhile_cons, if_neg ha]
        exact hmem

/-- The symmetric no-adjacent-hyphen relation survives list reversal. -/
theorem chainNoAdj_reverse (l : List Char)
    (h : List.Chain' (fun a b : Char => ¬(a = '-' ∧ b = '-')) l) :
    List.Chain' (fun a b : Char => ¬(a = '-' ∧ b = '-')) l.reverse :=
  List.chain'_reverse.mpr (h.imp (fun a b hab => fun hc => hab ⟨hc.2, hc.1⟩))

/-- Everything the shape argument needs about `trimHyphens`: a non-hyphen member
survives, the result is contained in the input, neither edge is a hyphen, and the
no-adjacent-hyphen chain is preserved. -/
theorem trimHyphens_facts (l : List Char) (c : Char) (hc : c ∈ l) (hcne : c ≠ '-')
    (hchain : List.Chain' (fun a b : Char => ¬(a = '-' ∧ b = '-')) l) :
    c ∈ trimHyphens l ∧
    (∀ x ∈ trimHyphens l, x ∈ l) ∧
    (trimHyphens l).head? ≠ some '-' ∧
    (trimHyphens l).getLast? ≠ some '-' ∧
    List.Chain' (fun a b : Char => ¬(a = '-' ∧ b = '-')) (trimHyphens l) := by
  have hpc : (fun x : Char => decide (x = '-')) c = false := by
    simpa using hcne
  have hcA : c ∈ l.dropWhile (fun x => decide (x = '-')) :=
    mem_dropWhile_of_not _ l c hc hpc
  have hcB : c ∈ ((l.dropWhile (fun x => decide (x = '-'))).reverse).dropWhile
      (fun x => decide (x = '-')) :=
    mem_dropWhile_of_not _ _ c (List.mem_reverse.mpr hcA) hpc
  refine ⟨List.mem_reverse.mpr hcB, ?_, ?_, ?_, ?_⟩
  · intro x hx
    have hx1 := List.mem_reverse.mp hx
    have hx2 := (List.dropWhile_suffix (fun x : Char => decide (x = '-'))).subset hx1
    have hx3 := List.mem_reverse.mp hx2
    exact (List.dropWhile_suffix (fun x : Char => decide (x = '-'))).subset hx3
  · -- the head of the result is the last of the inner dropWhile, which is the
    -- last of the reversed outer dropWhile, i.e. the head of the outer dropWhile
    unfold trimHyphens
    rw [List.head?_reverse]
    obtain ⟨t, ht⟩ := List.dropWhile_suffix (l := (l.dropWhile
      (fun x => decide (x = '-'))).reverse) (fun x => decide (x = '-'))
    set B := ((l.dropWhile (fun x => decide (x = '-'))).reverse).dropWhile
      (fun x => decide (x = '-')) with hB
    have hBne : B ≠ [] := fun h => by
      rw [h] at hcB
      cases hcB
    obtain ⟨v, hv⟩ : ∃ v, B.getLast? = some v :=
      ⟨B.getLast hBne, List.getLast?_eq_getLast B hBne⟩
    have hlast : B.getLast? =
        ((l.dropWhile (fun x => decide (x = '-'))).reverse).getLast? := by
      rw [← ht, List.getLast?_append, hv]
      rfl
    rw [hv] at hlast
    rw [hv]
    intro hcontra
    rw [hcontra] at hlast
    rw [List.getLast?_reverse] at hlast
    have := head_dropWhile_ne (fun x => decide (x = '-')) l '-' hlast.symm
    simp at this
  · unfold trimHyphens
    rw [List.getLast?_reverse]
    intro hcontra
    have := head_dropWhile_ne (fun x => decide (x = '-')) _ '-' hcontra
    simp at this
  · apply chainNoAdj_reverse
    apply List.Chain'.suffix _ (List.dropWhile_suffix (fun x : Char => decide (x = '-')))
    apply chainNoAdj_reverse
    exact List.Chain'.suffix hchain
      (List.dropWhile_suffix (fun x : Char => decide (x = '-')))

/-- The base slug of any name containing at least one alphanumeric character (after
lower-casing) matches `^[a-z0-9]+(-[a-z0-9]+)*$`. -/
theorem matchesSlugShape_slugify (name : String)
    (h : name.toList.any (fun c => isLowerAlnum c.toLower) = true) :
    matchesSlugShape (slugify name) = true := by
  obtain ⟨c0, hc0mem, hc0⟩ := List.any_eq_true.mp h
  have hcl : c0.toLower ∈ name.toList.map Char.toLower :=
    List.mem_map_of_mem Char.toLower hc0mem
  have hcw : (c0.toLower).isWhitespace = false := isLowerAlnum_not_ws _ hc0
  have hcs : c0.toLower ∈ replaceWhitespaceRuns (name.toList.map Char.toLower) :=
    mem_squashWhitespace _ hcw false _ hcl
  have hcf : c0.toLower ∈ (replaceWhitespaceRuns (name.toList.map Char.toLower)).filter
      (fun c => isLowerAlnum c || c = '-') :=
    List.mem_filter.mpr ⟨hcs, by simp [hc0]⟩
  have hcne : c0.toLower ≠ '-' := isLowerAlnum_ne_hyphen _ hc0
  have hcc : c0.toLower ∈ collapseHyphens
      ((replaceWhitespaceRuns (name.toList.map Char.toLower)).filter
        (fun c => isLowerAlnum c || c = '-')) :=
    mem_collapseHyphens _ _ hcf hcne
  have hchain := (noAdjacentHyphens_iff _).mp (noAdjacentHyphens_collapseHyphens
    ((replaceWhitespaceRuns (name.toList.map Char.toLower)).filter
      (fun c => isLowerAlnum c || c = '-')))
  obtain ⟨hmem, hsub, hhead, hlast, hchain'⟩ :=
    trimHyphens_facts _ _ hcc hcne hchain
  have hne : trimHyphens (collapseHyphens
      ((replaceWhitespaceRuns (name.toList.map Char.toLower)).filter
        (fun c => isLowerAlnum c || c = '-'))) ≠ [] := by
    intro hnil
    rw [hnil] at hmem
    cases hmem
  simp only [matchesSlugShape, slugify, Bool.and_eq_true]
  refine ⟨⟨⟨⟨?_, ?_⟩, ?_⟩, ?_⟩, ?_⟩
  · rw [Bool.not_eq_true', List.isEmpty_eq_false]
    exact hne
  · rw [List.all_eq_true]
    intro x hx
    have hx1 := hsub x hx
    have hx2 := collapseHyphens_subset _ x hx1
    exact (List.mem_filter.mp hx2).2
  · rw [Bool.not_eq_true', decide_eq_false_iff_not]
    exact hhead
  · rw [Bool.not_eq_true', decide_eq_false_iff_not]
    exact hlast
  · exact (noAdjacentHyphens_iff _).mpr hchain'

/-- C6 counterexample: the claim quantifies over every store name, but a name with
no alphanumeric character — such as `"!!!"` — slugifies to the empty string, which
does not match `^[a-z0-9]+(-[a-z0-9]+)*$`. -/
theorem slugify_no_alnum_counterexample :
    slugify "!!!" = "" ∧ matchesSlugShape (slugify "!!!") = false := by
  refine ⟨by decide, by decide⟩

/-- C6 (amended): for every name containing at least one alphanumeric character
(after lower-casing), the derived base slug matches `^[a-z0-9]+(-[a-z0-9]+)*$`;
collision resolution never returns a slug already present in the catalog, so any
two stores created with identical names receive distinct slugs; and a second store
named `"Blue Moon Cafe"` receives the slug `"blue-moon-cafe-2"`. -/
theorem deriveSlug_shape_and_collision :
    (∀ name : String, name.toList.any (fun c => isLowerAlnum c.toLower) = true →
        matchesSlugShape (slugify name) = true) ∧
    (∀ (existing : List String) (candidate : String),
        uniqueSlug existing candidate ∉ existing) ∧
    (∀ (catalog : List StoreDoc) (user newId : String) (body : StoreBody)
        (user2 newId2 : String) (body2 : StoreBody), body2.name = body.name →
        (newStoreDoc (catalog ++ [newStoreDoc catalog user newId body]) user2 newId2
            body2).slug ≠ (newStoreDoc catalog user newId body).slug) ∧
    uniqueSlug ["blue-moon-cafe"] (slugify "Blue Moon Cafe") = "blue-moon-cafe-2" := by
  refine ⟨matchesSlugShape_slugify, uniqueSlug_not_mem, ?_, by decide⟩
  intro catalog user newId body user2 newId2 body2 _hname heq
  have h2 := uniqueSlug_not_mem
    ((catalog ++ [newStoreDoc catalog user newId body]).map StoreDoc.slug)
    (slugify body2.name)
  have hmem : (newStoreDoc catalog user newId body).slug ∈
      (catalog ++ [newStoreDoc catalog user newId body]).map StoreDoc.slug :=
    List.mem_map_of_mem StoreDoc.slug (by simp)
  rw [← heq] at hmem
  exact h2 hmem

/-- Witness for C6 (amended): the shape holds at `"Blue Moon Cafe"`, and a second
store created with the identical name gets a slug distinct from the first. -/
theorem deriveSlug_shape_and_collision_witness :
    matchesSlugShape (slugify "Blue Moon Cafe") = true ∧
    (newStoreDoc ([] ++ [newStoreDoc [] "alice" "s1" demoBody]) "bob" "s2"
        demoBody).slug ≠ (newStoreDoc [] "alice" "s1" demoBody).slug :=
  ⟨deriveSlug_shape_and_collision.1 "Blue Moon Cafe" (by decide),
   deriveSlug_shape_and_collision.2.2.1 [] "alice" "s1" demoBody "bob" "s2" demoBody rfl⟩

end LearnNode
